import Mathlib

/-!
Verification of the skill-extraction and classification engine of
`resume_screening_singlefile.py` against its natural-language specification.

The Python functions are shallowly embedded as Lean functions:

* Python strings are `List Char` (`Str`); `"…".data` produces literals.
* The float pipeline `round((matched / total) * 100.0, 2)` is modeled
  exactly in integer arithmetic: `fl64` performs the IEEE-754 binary64
  rounding (nearest, ties to even) of an exact fraction, applied once for
  the division and once for the multiplication by `100.0`, and CPython's
  `round(x, 2)` correctly rounds the double's exact value to the nearest
  hundredth, ties to even. The resulting two-decimal percentage is carried
  losslessly as its value in hundredths (`7000` stands for `70.0`): every
  comparison and format downstream is exact on such values.
* `re.sub(r"[^a-z0-9\+\#]+", " ", t)` and the word-boundary search
  `re.search(r"\b" + re.escape(kw) + r"\b", t)` are embedded by direct
  recursion over the character list, with Python's `\b` semantics: a
  boundary stands between a word character (`[a-zA-Z0-9_]`) and a
  non-word character or the string edge.
* The Python `set` of found skills is a duplicate-free list, and
  `sorted` is insertion sort by code-point order.

All definitions are executable, so concrete runs are settled by `decide`.
-/

namespace ResumeScreening

/-- Python strings, modeled as lists of characters. -/
abbrev Str := List Char

/-- One character of `str.lower()`; `Char.toLower` maps `A`–`Z` to `a`–`z`
and leaves every other character unchanged, which is Python's lowering on
the ASCII range. -/
def pyToLower (c : Char) : Char := c.toLower

/-- `str.lower()`. -/
def pyLower (s : Str) : Str := s.map pyToLower

/-- The whitespace characters removed by Python `str.strip()` (ASCII range). -/
def isPySpace (c : Char) : Bool :=
  c = ' ' || c = '\t' || c = '\n' || c = '\r' || c = '\x0b' || c = '\x0c'

/-- Python `str.strip()`: drop leading and trailing whitespace. -/
def strip (s : Str) : Str :=
  ((s.dropWhile isPySpace).reverse.dropWhile isPySpace).reverse

/-- The character class `[a-z0-9+#]` kept by the normalizer's regex
(the text has already been lowercased when the regex runs). -/
def isKeptChar (c : Char) : Bool :=
  (97 ≤ c.toNat && c.toNat ≤ 122) || (48 ≤ c.toNat && c.toNat ≤ 57) ||
    c = '+' || c = '#'

theorem length_dropWhile_le {α : Type} (p : α → Bool) (l : List α) :
    (l.dropWhile p).length ≤ l.length := by
  induction l with
  | nil => simp [List.dropWhile]
  | cons a l ih =>
    rw [List.dropWhile]
    cases p a with
    | true => exact Nat.le_succ_of_le ih
    | false => exact Nat.le_refl _

/-- `re.sub(r"[^a-z0-9\+\#]+", " ", t)` as a left-to-right scan: each
maximal run of characters outside the kept class becomes one space; the
flag records that the previous character belonged to a run already
replaced (structural recursion, so the kernel can evaluate it). -/
def collapseRunsAux (inRun : Bool) : Str → Str
  | [] => []
  | c :: cs =>
    if isKeptChar c then c :: collapseRunsAux false cs
    else if inRun then collapseRunsAux true cs
    else ' ' :: collapseRunsAux true cs

/-- `re.sub(r"[^a-z0-9\+\#]+", " ", t)`: each maximal run of characters
outside the kept class becomes one space. -/
def collapseRuns (s : Str) : Str := collapseRunsAux false s

/-- `normalize_text_for_matching` (source lines 97–100): lowercase, collapse
every run of characters outside `[a-z0-9+#]` to one space, pad with one
space on each side. -/
def normalize_text_for_matching (text : Str) : Str :=
  ' ' :: (collapseRuns (pyLower text) ++ [' '])

/-- Python regex word characters `\w` on the ASCII range: `[a-zA-Z0-9_]`. -/
def isWordChar (c : Char) : Bool :=
  (97 ≤ c.toNat && c.toNat ≤ 122) || (65 ≤ c.toNat && c.toNat ≤ 90) ||
    (48 ≤ c.toNat && c.toNat ≤ 57) || c = '_'

/-- Is there a word character at position `p` (false beyond the ends)? -/
def isWordAt (s : Str) (p : Nat) : Bool :=
  isWordChar (s.getD p '\x00')

/-- Python `\b`: a word boundary stands at position `p` when exactly one of
the character before `p` and the character at `p` is a word character
(positions outside the string count as non-word). -/
def boundaryAt (s : Str) (p : Nat) : Bool :=
  (match p with
   | 0 => false
   | q + 1 => isWordAt s q) != isWordAt s p

/-- `kw` occurs literally in `s` at position `i`. -/
def matchesAt (s kw : Str) (i : Nat) : Bool :=
  (s.drop i).take kw.length == kw

/-- `re.search(r"\b" + re.escape(kw) + r"\b", s)`: the escaped keyword is a
literal, so the search succeeds exactly when `kw` occurs at some position
with a `\b` boundary at both ends. -/
def searchWordBounded (s kw : Str) : Bool :=
  (List.range (s.length + 1)).any fun i =>
    matchesAt s kw i && boundaryAt s i && boundaryAt s (i + kw.length)

/-- Python substring test `kw in s`. -/
def isSubstring (kw s : Str) : Bool :=
  (List.range (s.length + 1)).any fun i => matchesAt s kw i

/-- Python string `<`: lexicographic comparison by code point. -/
def lexLt : Str → Str → Bool
  | [], [] => false
  | [], _ :: _ => true
  | _ :: _, [] => false
  | a :: as, b :: bs =>
    if a.toNat < b.toNat then true
    else if b.toNat < a.toNat then false
    else lexLt as bs

/-- The order `sorted` arranges by: not strictly above. -/
def lexLe (a b : Str) : Prop := lexLt b a = false

instance : DecidableRel lexLe := fun a b =>
  inferInstanceAs (Decidable (lexLt b a = false))

/-- Adding one element to the Python `set` of found skills (sets are
duplicate-free; insertion order is irrelevant after sorting). -/
def insertNew (x : Str) (l : List Str) : List Str :=
  if x ∈ l then l else l ++ [x]

/-- The body of the `for kw in skills_list` loop of `find_skill_matches`
(source lines 105–115): strip and lowercase the keyword, skip it when
empty, substring test when it has an inner space, word-bounded regex
search otherwise. -/
def addSkillMatch (t : Str) (found : List Str) (kw0 : Str) : List Str :=
  let kw := pyLower (strip kw0)
  if kw = [] then found
  else if kw.contains ' ' then
    (if isSubstring kw t then insertNew kw found else found)
  else
    (if searchWordBounded t kw then insertNew kw found else found)

/-- `find_skill_matches` (source lines 102–116): normalize the text, run the
loop over the keywords, return the sorted set. -/
def find_skill_matches (text : Str) (skills_list : List Str) : List Str :=
  List.insertionSort lexLe
    (skills_list.foldl (addSkillMatch (normalize_text_for_matching text)) [])

/-- Fuelled binary logarithm: once `fuel` is at least the number of
halvings, `log2fuel fuel n` is the floor of the base-two logarithm of `n`
(structural recursion, so the kernel can evaluate it). -/
def log2fuel : Nat → Nat → Nat
  | 0, _ => 0
  | fuel + 1, n => if 2 ≤ n then log2fuel fuel (n / 2) + 1 else 0

/-- Floor of the base-two logarithm of `n` (0 at 0). -/
def natLog2 (n : Nat) : Nat := log2fuel n n

/-- Ceiling of the base-two logarithm: the least `j` with `2^j ≥ k`. -/
def natClog2 (k : Nat) : Nat := if k ≤ 1 then 0 else natLog2 (k - 1) + 1

/-- Floor of the base-two logarithm of the positive fraction `n / d`
(negative when `n < d`). -/
def floorLogTwo (n d : Nat) : ℤ :=
  if d ≤ n then (natLog2 (n / d) : ℤ)
  else -(natClog2 ((d + n - 1) / n) : ℤ)

/-- Round the nonnegative fraction `a / b` (`b ≥ 1`) to the nearest
integer, an exact tie going to the even neighbour. -/
def roundNearEven (a b : Nat) : Nat :=
  let q := a / b
  let r := a % b
  if 2 * r < b then q
  else if b < 2 * r then q + 1
  else if q % 2 = 0 then q
  else q + 1

/-- IEEE-754 binary64 rounding (round to nearest, ties to even) of the
nonnegative fraction `n / d` (`d ≥ 1`): a pair `(s, e)` of integer
significand and binary exponent whose value is `s * 2^e`. The quantum
exponent `e` is `⌊log₂ (n/d)⌋ - 52` clamped below at the subnormal quantum
`-1074`, and `s` is the nearest-ties-even multiple of `2^e`. -/
def fl64 (n d : Nat) : Nat × ℤ :=
  if n = 0 then (0, 0)
  else
    let e : ℤ := max (floorLogTwo n d - 52) (-1074)
    (roundNearEven (n * 2 ^ (-e).toNat) (d * 2 ^ e.toNat), e)

/-- `c` times the binary64 value `s * 2^e`, as an exact fraction
(numerator, denominator). -/
def mulPow2Frac (c s : Nat) (e : ℤ) : Nat × Nat :=
  if 0 ≤ e then (c * s * 2 ^ e.toNat, 1) else (c * s, 2 ^ (-e).toNat)

/-- The double computed by the source expression
`(matched / total) * 100.0`: a binary64 division followed by a binary64
multiplication, each correctly rounded with ties to even. -/
def floatDivMul100 (matched total : Nat) : Nat × ℤ :=
  let x1 := fl64 matched total
  let f := mulPow2Frac 100 x1.1 x1.2
  fl64 f.1 f.2

/-- `round((matched / total) * 100.0, 2)` in hundredths: CPython's `round`
rounds the exact value of the computed double to the nearest multiple of
`1/100`, an exact tie going to the even neighbour. (The resulting
two-decimal value is represented losslessly by its hundredths; converting
that decimal back to a double is injective and order-preserving on
`[0, 100]`, so every downstream comparison and format is unaffected.) -/
def roundPctHundredths (matched total : Nat) : Nat :=
  let x2 := floatDivMul100 matched total
  let f := mulPow2Frac 100 x2.1 x2.2
  roundNearEven f.1 f.2

/-- `compute_match_percentage` (source lines 118–124); the percentage is in
hundredths (`7000` stands for the float `70.0`). -/
def compute_match_percentage (required_skills found_skills : List Str) :
    Nat × Nat × Nat :=
  if required_skills = [] then (0, 0, 0)
  else
    let total := required_skills.length
    let matched :=
      (required_skills.filter (fun s => decide (s ∈ found_skills))).length
    (roundPctHundredths matched total, matched, total)

/-- The comprehension on source line 135: critical entries that are not in
the found skills (compared as given, untrimmed) and are not blank. -/
def missing_critical_list (critical_skills found_skills : List Str) :
    List Str :=
  critical_skills.filter
    (fun c => !(decide (c ∈ found_skills)) && !(strip c == []))

/-- `", ".join` and friends. -/
def joinSep (sep : Str) : List Str → Str
  | [] => []
  | [x] => x
  | x :: xs => x ++ sep ++ joinSep sep xs

/-- Decimal digits of a natural number. -/
def natToStr (n : Nat) : Str := Nat.toDigits 10 n

/-- Python `repr` of the two-decimal float whose value is `h` hundredths:
the shortest decimal with at least one fractional digit (`7000` prints as
`70.0`, `6667` as `66.67`, `625` as `6.25`, `6250` as `62.5`). -/
def formatPctHundredths (h : Nat) : Str :=
  let ip := h / 100
  let fp := h % 100
  natToStr ip ++
    ('.' ::
      (if fp = 0 then ['0']
       else if fp % 10 = 0 then natToStr (fp / 10)
       else if fp < 10 then '0' :: natToStr fp
       else natToStr fp))

/-- The f-string `"{matched}/{total} required skills matched ({match_pct}%)"`. -/
def matchedReason (matched total match_pct : Nat) : Str :=
  natToStr matched ++ ('/' :: natToStr total) ++
    " required skills matched (".data ++ formatPctHundredths match_pct ++
    "%)".data

/-- `classify_by_required_skills` (source lines 127–149). -/
def classify_by_required_skills
    (required_skills found_skills critical_skills : List Str) :
    Str × Nat × Str :=
  let mp := compute_match_percentage required_skills found_skills
  let match_pct := mp.1
  let matched := mp.2.1
  let total := mp.2.2
  let missing_critical := missing_critical_list critical_skills found_skills
  if missing_critical ≠ [] then
    ("Reject".data, match_pct,
      "Missing critical skills: ".data ++ joinSep ", ".data missing_critical)
  else if 7000 ≤ match_pct then
    ("Suitable".data, match_pct, matchedReason matched total match_pct)
  else if 4000 ≤ match_pct then
    ("Maybe".data, match_pct, matchedReason matched total match_pct)
  else
    ("Reject".data, match_pct, matchedReason matched total match_pct)

/-- Python `s or fallback` for strings (empty is falsy). -/
def orElse (s fallback : Str) : Str := if s = [] then fallback else s

/-- `generate_reply_template` (source lines 152–173). -/
def generate_reply_template (name classification : Str)
    ( top_skills : List Str) (match_pct : Nat) : Str :=
  if classification = "Suitable".data then
    "Hi ".data ++ orElse name "Candidate".data ++
      ",\n\nThank you for applying. We reviewed your resume and your skills (".data ++
      orElse (joinSep ", ".data ( top_skills.take 6)) "relevant skills".data ++
      ") show a strong fit for the role (match: ".data ++
      formatPctHundredths match_pct ++
      "%). We\x27ll move your application to the next stage and contact you soon with interview details.\n\nBest regards,\nRecruitment Team".data
  else if classification = "Maybe".data then
    "Hi ".data ++ orElse name "Candidate".data ++
      ",\n\nThank you for applying. We see potential fit based on your skills (".data ++
      orElse (joinSep ", ".data ( top_skills.take 5)) "listed skills".data ++
      "). Your match is ".data ++ formatPctHundredths match_pct ++
      "%. We\x27ll review further and may reach out for a short screening call.\n\nBest regards,\nRecruitment Team".data
  else
    "Hi ".data ++ orElse name "Candidate".data ++
      ",\n\nThank you for applying. At this time we will not be proceeding with your application. We appreciate your interest and encourage you to apply for future openings that match your experience.\n\nBest regards,\nRecruitment Team".data

/-- `str.split(",")`. -/
def splitComma : Str → List Str
  | [] => [[]]
  | c :: cs =>
    if c = ',' then [] :: splitComma cs
    else
      match splitComma cs with
      | [] => [[c]]
      | g :: gs => (c :: g) :: gs

/-- The skill-entry parsing on source lines 373–376: strip the whole entry,
split on commas, keep the non-blank parts stripped and lowercased (an empty
entry gives the empty list). -/
def parse_skill_entry (raw : Str) : List Str :=
  let r := strip raw
  if r = [] then []
  else
    ((splitComma r).filter (fun s => !(strip s == []))).map
      (fun s => pyLower (strip s))

/-- The fields of one candidate record written by a screening pass. -/
structure ScreenedCandidate where
  found_skills : List Str
  classification : Str
  match_pct : Nat
  reason : Str
deriving DecidableEq

/-- One candidate's update inside `StyledResumeApp.screen_resumes` (source
lines 373–385): parse both entries, match against required + critical,
classify. -/
def screen_candidate (req_raw crit_raw text : Str) : ScreenedCandidate :=
  let required_skills := parse_skill_entry req_raw
  let critical_skills := parse_skill_entry crit_raw
  let found := find_skill_matches text (required_skills ++ critical_skills)
  let res := classify_by_required_skills required_skills found critical_skills
  ⟨found, res.1, res.2.1, res.2.2⟩

/-- Replacement of one character by the normalizer's wording: characters
outside `[a-z0-9+#]` become a space (spec-side definition, used to compare
the code's run-collapsing substitution with the specified wording). -/
def maskChar (c : Char) : Char := if isKeptChar c then c else ' '

/-- Collapse every maximal run of spaces to a single space (spec-side
definition: together with `maskChar` this expresses "every maximal run of
characters outside `[a-z0-9+#]` is replaced by one space"). -/
def squeezeSpaces : Str → Str
  | [] => []
  | c :: cs =>
    if c = ' ' then ' ' :: squeezeSpaces (cs.dropWhile (fun d => d == ' '))
    else c :: squeezeSpaces cs
termination_by s => s.length
decreasing_by
  · simp only [List.length_cons]
    exact Nat.lt_succ_of_le (length_dropWhile_le _ _)
  · simp only [List.length_cons]
    omega

/-- Spec-side definition, following the wording of the claim on the critical
skills: "the critical skills taken non-empty and trimmed", "each remaining
critical entry is compared in trimmed form against the found-skills set". -/
def missing_critical_spec (critical_skills found_skills : List Str) :
    List Str :=
  (critical_skills.map strip).filter
    (fun c => !(c == []) && !(decide (c ∈ found_skills)))

/-! ## Character-level facts -/

theorem toNat_ofNat_valid (n : Nat) (h : n < 55296) :
    (Char.ofNat n).toNat = n := by
  rw [Char.ofNat, dif_pos (Or.inl h)]
  rfl

theorem pyToLower_toNat_of_upper (c : Char) (h : 65 ≤ c.toNat ∧ c.toNat ≤ 90) :
    (pyToLower c).toNat = c.toNat + 32 := by
  rw [pyToLower, Char.toLower, if_pos h]
  exact toNat_ofNat_valid _ (by omega)

theorem pyToLower_eq_self (c : Char) (h : ¬(65 ≤ c.toNat ∧ c.toNat ≤ 90)) :
    pyToLower c = c := by
  rw [pyToLower, Char.toLower, if_neg h]

theorem pyToLower_idem (c : Char) : pyToLower (pyToLower c) = pyToLower c := by
  by_cases h : 65 ≤ c.toNat ∧ c.toNat ≤ 90
  · have h2 := pyToLower_toNat_of_upper c h
    exact pyToLower_eq_self _ (by omega)
  · rw [pyToLower_eq_self c h]
    exact pyToLower_eq_self c h

theorem isPySpace_eq_false_of_big (c : Char) (h : 33 ≤ c.toNat) :
    isPySpace c = false := by
  have h1 : c ≠ ' ' := by intro he; subst he; exact absurd h (by decide)
  have h2 : c ≠ '\t' := by intro he; subst he; exact absurd h (by decide)
  have h3 : c ≠ '\n' := by intro he; subst he; exact absurd h (by decide)
  have h4 : c ≠ '\r' := by intro he; subst he; exact absurd h (by decide)
  have h5 : c ≠ '\x0b' := by intro he; subst he; exact absurd h (by decide)
  have h6 : c ≠ '\x0c' := by intro he; subst he; exact absurd h (by decide)
  simp [isPySpace, h1, h2, h3, h4, h5, h6]

theorem isPySpace_pyToLower (c : Char) : isPySpace (pyToLower c) = isPySpace c := by
  by_cases h : 65 ≤ c.toNat ∧ c.toNat ≤ 90
  · have h2 := pyToLower_toNat_of_upper c h
    rw [isPySpace_eq_false_of_big _ (by omega),
      isPySpace_eq_false_of_big _ (by omega)]
  · rw [pyToLower_eq_self c h]

/-! ## Lowercasing and stripping -/

theorem pyLower_idem (s : Str) : pyLower (pyLower s) = pyLower s := by
  simp only [pyLower, List.map_map]
  exact List.map_congr_left fun c _ => pyToLower_idem c

theorem dropWhile_congr {α : Type} {p q : α → Bool} (h : ∀ a, p a = q a)
    (l : List α) : l.dropWhile p = l.dropWhile q := by
  induction l with
  | nil => rfl
  | cons a l ih =>
    by_cases hq : q a
    · rw [List.dropWhile_cons, List.dropWhile_cons, h a, if_pos hq, if_pos hq]
      exact ih
    · rw [List.dropWhile_cons, List.dropWhile_cons, h a, if_neg hq, if_neg hq]

theorem dropWhile_pyLower (s : Str) :
    (pyLower s).dropWhile isPySpace = pyLower (s.dropWhile isPySpace) := by
  rw [pyLower, List.dropWhile_map]
  congr 1
  exact dropWhile_congr (fun c => isPySpace_pyToLower c) s

theorem strip_pyLower (s : Str) : strip (pyLower s) = pyLower (strip s) := by
  simp only [strip, pyLower]
  rw [show (List.map pyToLower s).dropWhile isPySpace =
        List.map pyToLower (s.dropWhile isPySpace) from dropWhile_pyLower s,
    ← List.map_reverse, show (List.map pyToLower (s.dropWhile isPySpace).reverse).dropWhile isPySpace =
        List.map pyToLower ((s.dropWhile isPySpace).reverse.dropWhile isPySpace) from
      dropWhile_pyLower _,
    ← List.map_reverse]

theorem dropWhile_dropWhile {α : Type} (p : α → Bool) (l : List α) :
    (l.dropWhile p).dropWhile p = l.dropWhile p := by
  induction l with
  | nil => rfl
  | cons a l ih =>
    rw [List.dropWhile_cons]
    by_cases h : p a
    · rw [if_pos h]; exact ih
    · rw [if_neg h, List.dropWhile_cons, if_neg h]

theorem dropWhile_suffix_exists {α : Type} (p : α → Bool) (l : List α) :
    ∃ t, t ++ l.dropWhile p = l := by
  induction l with
  | nil => exact ⟨[], rfl⟩
  | cons a l ih =>
    rw [List.dropWhile_cons]
    by_cases h : p a
    · obtain ⟨t, ht⟩ := ih
      exact ⟨a :: t, by rw [if_pos h, List.cons_append, ht]⟩
    · exact ⟨[], by rw [if_neg h]; rfl⟩

theorem dropWhile_of_head_done {α : Type} (p : α → Bool) (l l' t : List α)
    (hl : l.dropWhile p = l) (hpre : l' ++ t = l) : l'.dropWhile p = l' := by
  cases l' with
  | nil => rfl
  | cons c rest =>
    have hc : p c = false := by
      by_contra hpc
      have hpc' : p c = true := by
        cases hq : p c
        · exact absurd hq hpc
        · rfl
      subst hpre
      rw [List.cons_append, List.dropWhile_cons, if_pos hpc'] at hl
      have h1 := length_dropWhile_le p (rest ++ t)
      rw [hl] at h1
      simp at h1
    rw [List.dropWhile_cons, if_neg (by simp [hc])]

theorem strip_no_left_space (s : Str) : (strip s).dropWhile isPySpace = strip s := by
  have h1 : (s.dropWhile isPySpace).dropWhile isPySpace = s.dropWhile isPySpace :=
    dropWhile_dropWhile _ _
  obtain ⟨t, ht⟩ := dropWhile_suffix_exists isPySpace (s.dropWhile isPySpace).reverse
  have hpre : strip s ++ t.reverse = s.dropWhile isPySpace := by
    have h2 := congrArg List.reverse ht
    rwa [List.reverse_append, List.reverse_reverse] at h2
  exact dropWhile_of_head_done isPySpace (s.dropWhile isPySpace) (strip s)
    t.reverse h1 hpre

theorem strip_idem (s : Str) : strip (strip s) = strip s := by
  have h1 : (strip s).dropWhile isPySpace = strip s := strip_no_left_space s
  have h2 : (strip s).reverse.dropWhile isPySpace = (strip s).reverse := by
    rw [show (strip s).reverse =
        ((s.dropWhile isPySpace).reverse.dropWhile isPySpace) from by
      rw [strip, List.reverse_reverse]]
    exact dropWhile_dropWhile _ _
  rw [strip, h1, h2, List.reverse_reverse]

theorem pyLower_strip_fix (s : Str) :
    pyLower (strip (pyLower (strip s))) = pyLower (strip s) := by
  rw [strip_pyLower, pyLower_idem, strip_idem]

/-! ## The lexicographic order used by `sorted` -/

theorem lexLt_total (a b : Str) : lexLt a b = false ∨ lexLt b a = false := by
  induction a generalizing b with
  | nil =>
    cases b with
    | nil => exact Or.inl rfl
    | cons y ys => exact Or.inr rfl
  | cons x xs ih =>
    cases b with
    | nil => exact Or.inl rfl
    | cons y ys =>
      rcases Nat.lt_trichotomy x.toNat y.toNat with h | h | h
      · refine Or.inr ?_
        rw [lexLt, if_neg (by omega), if_pos h]
      · rcases ih ys with h2 | h2
        · refine Or.inl ?_
          rw [lexLt, if_neg (by omega), if_neg (by omega)]
          exact h2
        · refine Or.inr ?_
          rw [lexLt, if_neg (by omega), if_neg (by omega)]
          exact h2
      · refine Or.inl ?_
        rw [lexLt, if_neg (by omega), if_pos h]

theorem lexLt_neg_trans (a b c : Str) (h1 : lexLt b a = false)
    (h2 : lexLt c b = false) : lexLt c a = false := by
  induction a generalizing b c with
  | nil =>
    cases c with
    | nil => rfl
    | cons z zs => rfl
  | cons x xs ih =>
    cases b with
    | nil => simp [lexLt] at h1
    | cons y ys =>
      cases c with
      | nil => simp [lexLt] at h2
      | cons z zs =>
        by_cases hyx : y.toNat < x.toNat
        · simp only [lexLt, if_pos hyx] at h1
          exact Bool.noConfusion h1
        · by_cases hzy : z.toNat < y.toNat
          · simp only [lexLt, if_neg hyx, if_pos hzy] at h2
            · simp at h2
          · by_cases hzx : z.toNat < x.toNat
            · omega
            · by_cases hxz : x.toNat < z.toNat
              · simp only [lexLt]
                rw [if_neg hzx, if_pos hxz]
              · have hxy : ¬x.toNat < y.toNat := by omega
                have hyz : ¬y.toNat < z.toNat := by omega
                simp only [lexLt] at h1 h2 ⊢
                rw [if_neg hyx, if_neg hxy] at h1
                rw [if_neg hzy, if_neg hyz] at h2
                rw [if_neg hzx, if_neg hxz]
                exact ih ys zs h1 h2

instance : IsTotal Str lexLe :=
  ⟨fun a b => by
    rcases lexLt_total a b with h | h
    · exact Or.inr h
    · exact Or.inl h⟩

instance : IsTrans Str lexLe :=
  ⟨fun a b c h1 h2 => lexLt_neg_trans a b c h1 h2⟩

/-! ## The found-skills set -/

theorem insertNew_nodup (x : Str) (l : List Str) (h : l.Nodup) :
    (insertNew x l).Nodup := by
  rw [insertNew]
  by_cases hx : x ∈ l
  · rw [if_pos hx]; exact h
  · rw [if_neg hx]
    rw [List.nodup_append]
    exact ⟨h, List.nodup_singleton x, by
      intro a ha hb
      rw [List.mem_singleton] at hb
      subst hb
      exact hx ha⟩

theorem mem_insertNew {x y : Str} {l : List Str} (h : y ∈ insertNew x l) :
    y ∈ l ∨ y = x := by
  rw [insertNew] at h
  by_cases hx : x ∈ l
  · rw [if_pos hx] at h; exact Or.inl h
  · rw [if_neg hx] at h
    rcases List.mem_append.mp h with h | h
    · exact Or.inl h
    · exact Or.inr (List.mem_singleton.mp h)

theorem addSkillMatch_nodup (t : Str) (found : List Str) (kw0 : Str)
    (h : found.Nodup) : (addSkillMatch t found kw0).Nodup := by
  rw [addSkillMatch]
  split
  · exact h
  · split
    · split
      · exact insertNew_nodup _ _ h
      · exact h
    · split
      · exact insertNew_nodup _ _ h
      · exact h

theorem mem_addSkillMatch {t : Str} {found : List Str} {kw0 : Str} {x : Str}
    (h : x ∈ addSkillMatch t found kw0) :
    x ∈ found ∨ x = pyLower (strip kw0) := by
  rw [addSkillMatch] at h
  split at h
  · exact Or.inl h
  · split at h
    · split at h
      · exact mem_insertNew h
      · exact Or.inl h
    · split at h
      · exact mem_insertNew h
      · exact Or.inl h

theorem foldl_addSkillMatch_nodup (t : Str) (skills : List Str)
    (acc : List Str) (h : acc.Nodup) :
    (skills.foldl (addSkillMatch t) acc).Nodup := by
  induction skills generalizing acc with
  | nil => exact h
  | cons k ks ih => exact ih _ (addSkillMatch_nodup t acc k h)

theorem mem_foldl_addSkillMatch {t : Str} {skills : List Str}
    {acc : List Str} {x : Str} (h : x ∈ skills.foldl (addSkillMatch t) acc) :
    x ∈ acc ∨ ∃ kw0 ∈ skills, x = pyLower (strip kw0) := by
  induction skills generalizing acc with
  | nil => exact Or.inl h
  | cons k ks ih =>
    rcases ih h with h2 | h2
    · rcases mem_addSkillMatch h2 with h3 | h3
      · exact Or.inl h3
      · exact Or.inr ⟨k, List.mem_cons_self k ks, h3⟩
    · obtain ⟨kw0, hk, hx⟩ := h2
      exact Or.inr ⟨kw0, List.mem_cons_of_mem k hk, hx⟩

theorem addSkillMatch_congr (t : Str) (acc : List Str) {kw0 kw0' : Str}
    (h : pyLower (strip kw0') = pyLower (strip kw0)) :
    addSkillMatch t acc kw0' = addSkillMatch t acc kw0 := by
  rw [addSkillMatch, addSkillMatch, h]

theorem foldl_addSkillMatch_congr (t : Str) (skills skills' : List Str)
    (acc : List Str) (h : skills'.map pyLower = skills.map pyLower) :
    skills'.foldl (addSkillMatch t) acc = skills.foldl (addSkillMatch t) acc := by
  induction skills generalizing skills' acc with
  | nil =>
    cases skills' with
    | nil => rfl
    | cons k ks => exact absurd h (by simp)
  | cons k ks ih =>
    cases skills' with
    | nil => exact absurd h (by simp)
    | cons k' ks' =>
      simp only [List.map_cons, List.cons.injEq] at h
      obtain ⟨hk, hks⟩ := h
      have hkk : pyLower (strip k') = pyLower (strip k) := by
        rw [← strip_pyLower, ← strip_pyLower, hk]
      rw [List.foldl_cons, List.foldl_cons, addSkillMatch_congr t acc hkk,
        ih ks' _ hks]

/-! ## Claim theorems -/

/-- Claim C5: with an empty required-skills list `compute_match_percentage`
returns percentage `0.0` (not an error, and not `100.0`) together with
`matched = 0` and `total = 0`, for every found-skills set. The function is
total, so "does not raise an error" holds by construction. -/
theorem empty_required_zero_percent (found_skills : List Str) :
    compute_match_percentage [] found_skills = (0, 0, 0) ∧
    (compute_match_percentage [] found_skills).1 ≠ 10000 := by
  refine ⟨rfl, ?_⟩
  rw [show compute_match_percentage [] found_skills = (0, 0, 0) from rfl]
  decide

/-- Claim C1: a non-blank critical skill absent from the found skills forces
classification `Reject` with reason `Missing critical skills: ` followed by
the comma-joined missing criticals, regardless of the match percentage, and
the returned percentage is still the one computed from the required
skills. -/
theorem critical_override_rejects
    (required_skills found_skills critical_skills : List Str)
    (h : ∃ c ∈ critical_skills, strip c ≠ [] ∧ c ∉ found_skills) :
    classify_by_required_skills required_skills found_skills critical_skills =
      ("Reject".data,
       (compute_match_percentage required_skills found_skills).1,
       "Missing critical skills: ".data ++
         joinSep ", ".data
           (missing_critical_list critical_skills found_skills)) := by
  obtain ⟨c, hc, hs, hn⟩ := h
  have hmem : c ∈ missing_critical_list critical_skills found_skills := by
    rw [missing_critical_list, List.mem_filter]
    refine ⟨hc, ?_⟩
    simp only [Bool.and_eq_true, Bool.not_eq_true', decide_eq_false_iff_not,
      beq_eq_false_iff_ne, ne_eq]
    exact ⟨hn, hs⟩
  have hne : missing_critical_list critical_skills found_skills ≠ [] := by
    intro h0
    rw [h0] at hmem
    exact List.not_mem_nil c hmem
  simp only [classify_by_required_skills]
  rw [if_pos hne]

/-- Witness for C1, the spec's own scenario: 100 % on required skills and
still rejected for the missing critical skill `aws`. -/
theorem critical_override_rejects_witness :
    classify_by_required_skills ["python".data, "sql".data]
        ["python".data, "sql".data] ["aws".data] =
      ("Reject".data, 10000, "Missing critical skills: aws".data) := by
  have h := critical_override_rejects ["python".data, "sql".data]
    ["python".data, "sql".data] ["aws".data]
    ⟨"aws".data, by decide, by decide, by decide⟩
  rw [h]
  decide

/-- Claim C8: for every classification other than `Suitable` and `Maybe`
(such as `Reject` or `Unscreened`) the reply body does not depend on the
skill list or on the percentage at all, so it never leaks either. -/
theorem decline_reply_independent
    (name classA classB : Str) ( skillsA skillsB : List Str) (pctA pctB : Nat)
    (hA1 : classA ≠ "Suitable".data) (hA2 : classA ≠ "Maybe".data)
    (hB1 : classB ≠ "Suitable".data) (hB2 : classB ≠ "Maybe".data) :
    generate_reply_template name classA skillsA pctA =
      generate_reply_template name classB skillsB pctB := by
  rw [generate_reply_template, if_neg hA1, if_neg hA2,
    generate_reply_template, if_neg hB1, if_neg hB2]

/-- Witness for C8: a `Reject` reply with skills and a 100 % score equals an
`Unscreened` reply with no skills and a zero score. -/
theorem decline_reply_independent_witness :
    generate_reply_template "Ada Lovelace".data "Reject".data
        ["python".data, "sql".data] 10000 =
      generate_reply_template "Ada Lovelace".data "Unscreened".data [] 0 :=
  decline_reply_independent "Ada Lovelace".data "Reject".data
    "Unscreened".data ["python".data, "sql".data] [] 10000 0
    (by decide) (by decide) (by decide) (by decide)

/-- Claim C3 fails on the code: the skills `c++` and `c#` occur in these
texts as whole tokens (bounded by the text edges or by characters outside
`[a-z0-9+#]`), yet `find_skill_matches` misses them, because the pattern's
trailing `\b` demands a word character `[a-zA-Z0-9_]` right after the final
`+`/`#`. The last conjunct confirms the token `c++` does stand
space-bounded inside the normalized text, so the occurrence is in the
claim's scope. -/
theorem cpp_csharp_whole_token_missed :
    find_skill_matches "c++".data ["c++".data] = [] ∧
    find_skill_matches "a c# developer".data ["c#".data] = [] ∧
    isSubstring " c++ ".data (normalize_text_for_matching "c++".data) = true := by
  decide

/-! ## The threshold branches and the percentage formula -/

theorem classify_eq_of_no_missing
    (required_skills found_skills critical_skills : List Str)
    (hmiss : missing_critical_list critical_skills found_skills = []) :
    classify_by_required_skills required_skills found_skills critical_skills =
      (if 7000 ≤ (compute_match_percentage required_skills found_skills).1 then
         "Suitable".data
       else if 4000 ≤ (compute_match_percentage required_skills found_skills).1 then
         "Maybe".data
       else "Reject".data,
       (compute_match_percentage required_skills found_skills).1,
       matchedReason (compute_match_percentage required_skills found_skills).2.1
         (compute_match_percentage required_skills found_skills).2.2
         (compute_match_percentage required_skills found_skills).1) := by
  simp only [classify_by_required_skills, hmiss]
  rw [if_neg (by simp)]
  by_cases h7 : 7000 ≤ (compute_match_percentage required_skills found_skills).1
  · rw [if_pos h7, if_pos h7]
  · rw [if_neg h7, if_neg h7]
    by_cases h4 : 4000 ≤ (compute_match_percentage required_skills found_skills).1
    · rw [if_pos h4, if_pos h4]
    · rw [if_neg h4, if_neg h4]

/-- Claim C2: when no critical skill is missing, the classification is
`Suitable` for a percentage of at least `70.0`, `Maybe` for at least `40.0`
and under `70.0`, and `Reject` under `40.0` (percentages carried in
hundredths), and in all three branches the reason is the template
`{matched}/{total} required skills matched ({match_pct}%)`. -/
theorem threshold_classification
    (required_skills found_skills critical_skills : List Str)
    (hcrit : ∀ c ∈ critical_skills, strip c ≠ [] → c ∈ found_skills)
    (match_pct matched total : Nat)
    (hmp : compute_match_percentage required_skills found_skills =
      (match_pct, matched, total)) :
    (7000 ≤ match_pct →
      classify_by_required_skills required_skills found_skills critical_skills =
        ("Suitable".data, match_pct, matchedReason matched total match_pct)) ∧
    (4000 ≤ match_pct → match_pct < 7000 →
      classify_by_required_skills required_skills found_skills critical_skills =
        ("Maybe".data, match_pct, matchedReason matched total match_pct)) ∧
    (match_pct < 4000 →
      classify_by_required_skills required_skills found_skills critical_skills =
        ("Reject".data, match_pct, matchedReason matched total match_pct)) := by
  have hmiss : missing_critical_list critical_skills found_skills = [] := by
    rw [missing_critical_list, List.filter_eq_nil_iff]
    intro c hc hcontra
    simp only [Bool.and_eq_true, Bool.not_eq_true', decide_eq_false_iff_not,
      beq_eq_false_iff_ne, ne_eq] at hcontra
    exact hcontra.1 (hcrit c hc hcontra.2)
  have heq := classify_eq_of_no_missing required_skills found_skills
    critical_skills hmiss
  rw [hmp] at heq
  refine ⟨?_, ?_, ?_⟩
  · intro h7
    rw [heq]
    simp only
    rw [if_pos h7]
  · intro h4 h7
    rw [heq]
    simp only
    rw [if_neg (by omega), if_pos h4]
  · intro h4
    rw [heq]
    simp only
    rw [if_neg (by omega), if_neg (by omega)]

/-- Witness for C2, the spec's scenario: 2 of 4 required skills give 50 %
and `Maybe`, with the templated reason string. -/
theorem threshold_classification_witness :
    classify_by_required_skills
        ["python".data, "sql".data, "aws".data, "machine learning".data]
        ["python".data, "sql".data] [] =
      ("Maybe".data, 5000,
        "2/4 required skills matched (50.0%)".data) := by
  have h := (threshold_classification
    ["python".data, "sql".data, "aws".data, "machine learning".data]
    ["python".data, "sql".data] [] (by decide) 5000 2 4 (by decide)).2.1
    (by decide) (by decide)
  rw [h]
  decide

theorem roundNearEven_near (a b : Nat) (hb : 0 < b) :
    (2 * (b * roundNearEven a b) ≤ 2 * a + b ∧
     2 * a ≤ 2 * (b * roundNearEven a b) + b) ∧
    ((2 * (b * roundNearEven a b) = 2 * a + b ∨
      2 * (b * roundNearEven a b) + b = 2 * a) →
      roundNearEven a b % 2 = 0) := by
  have key := Nat.div_add_mod a b
  have hrlt := Nat.mod_lt a hb
  simp only [roundNearEven]
  split
  · exact ⟨⟨by omega, by omega⟩, by omega⟩
  · split
    · simp only [Nat.mul_add, Nat.mul_one]
      exact ⟨⟨by omega, by omega⟩, by omega⟩
    · split
      · exact ⟨⟨by omega, by omega⟩, by omega⟩
      · simp only [Nat.mul_add, Nat.mul_one]
        exact ⟨⟨by omega, by omega⟩, by omega⟩

theorem roundNearEven_le (a b c : Nat) (hb : 0 < b) (h : a ≤ c * b) :
    roundNearEven a b ≤ c := by
  have key := Nat.div_add_mod a b
  have hrlt := Nat.mod_lt a hb
  have hq : a / b ≤ c := by
    have h2 : a / b ≤ c * b / b := Nat.div_le_div_right h
    rwa [Nat.mul_div_cancel c hb] at h2
  have hqlt : 0 < a % b → a / b < c := by
    intro hr0
    have hc : c * b = b * c := Nat.mul_comm _ _
    have hx : b * (a / b) < b * c := by omega
    exact Nat.lt_of_mul_lt_mul_left hx
  simp only [roundNearEven]
  split
  · exact hq
  · split
    · have := hqlt (by omega)
      omega
    · split
      · exact hq
      · have := hqlt (by omega)
        omega

theorem log2fuel_le (fuel : Nat) : ∀ n c : Nat, n < 2 ^ (c + 1) →
    log2fuel fuel n ≤ c := by
  induction fuel with
  | zero => intro n c _; exact Nat.zero_le c
  | succ fuel ih =>
    intro n c h
    rw [log2fuel]
    split
    · next h2 =>
      cases c with
      | zero =>
        norm_num at h
        omega
      | succ c =>
        have hn2 : n / 2 < 2 ^ (c + 1) := by
          rw [Nat.div_lt_iff_lt_mul (by omega : 0 < 2)]
          calc n < 2 ^ (c + 1 + 1) := h
          _ = 2 ^ (c + 1) * 2 := by rw [Nat.pow_succ]
        exact Nat.succ_le_succ (ih (n / 2) c hn2)
    · exact Nat.zero_le c

theorem natLog2_le (n c : Nat) (h : n < 2 ^ (c + 1)) : natLog2 n ≤ c :=
  log2fuel_le n n c h

theorem fl64_exp_nonpos (n d C : Nat) (hd : 0 < d) (hn : n ≤ C * d)
    (hC : C < 2 ^ 53) : max (floorLogTwo n d - 52) (-1074) ≤ 0 := by
  have hL : floorLogTwo n d ≤ 52 := by
    rw [floorLogTwo]
    split
    · have hnd : n / d ≤ C := by
        have h2 : n / d ≤ C * d / d := Nat.div_le_div_right hn
        rwa [Nat.mul_div_cancel C hd] at h2
      have h53 : n / d < 2 ^ (52 + 1) := by
        have he : (2 : Nat) ^ (52 + 1) = 2 ^ 53 := rfl
        omega
      have := natLog2_le (n / d) 52 h53
      omega
    · have h0 : (0 : ℤ) ≤ (natClog2 ((d + n - 1) / n) : ℤ) :=
        Int.ofNat_nonneg _
      omega
  exact max_le (by omega) (by omega)

theorem fl64_bound (n d C : Nat) (hd : 0 < d) (hn : n ≤ C * d)
    (hC : C < 2 ^ 53) :
    (fl64 n d).2 ≤ 0 ∧
    (fl64 n d).1 ≤ C * 2 ^ (-(fl64 n d).2).toNat := by
  have he := fl64_exp_nonpos n d C hd hn hC
  by_cases h0 : n = 0
  · subst h0
    rw [fl64, if_pos rfl]
    exact ⟨le_refl 0, Nat.zero_le _⟩
  · have heq : fl64 n d =
        (roundNearEven
          (n * 2 ^ (-(max (floorLogTwo n d - 52) (-1074))).toNat)
          (d * 2 ^ (max (floorLogTwo n d - 52) (-1074)).toNat),
         max (floorLogTwo n d - 52) (-1074)) := by
      rw [fl64, if_neg h0]
    rw [heq]
    refine ⟨he, ?_⟩
    have het : (max (floorLogTwo n d - 52) (-1074)).toNat = 0 :=
      Int.toNat_of_nonpos he
    rw [het, pow_zero, Nat.mul_one]
    refine roundNearEven_le _ _ _ hd ?_
    calc n * 2 ^ (-(max (floorLogTwo n d - 52) (-1074))).toNat ≤
        C * d * 2 ^ (-(max (floorLogTwo n d - 52) (-1074))).toNat :=
          Nat.mul_le_mul_right _ hn
    _ = C * 2 ^ (-(max (floorLogTwo n d - 52) (-1074))).toNat * d :=
          Nat.mul_right_comm C d _

theorem mulPow2Frac_bound (c s C : Nat) (e : ℤ) (he : e ≤ 0)
    (hs : s ≤ C * 2 ^ (-e).toNat) :
    0 < (mulPow2Frac c s e).2 ∧
    (mulPow2Frac c s e).1 ≤ c * C * (mulPow2Frac c s e).2 := by
  rw [mulPow2Frac]
  split
  · next hpos =>
    have he0 : e = 0 := le_antisymm he hpos
    subst he0
    refine ⟨Nat.one_pos, ?_⟩
    simp only [Int.toNat_zero, pow_zero, Nat.mul_one] at hs ⊢
    have hzero : (-(0 : ℤ)).toNat = 0 := rfl
    rw [hzero, pow_zero, Nat.mul_one] at hs
    exact Nat.mul_le_mul_left c hs
  · refine ⟨Nat.pos_pow_of_pos _ (by omega), ?_⟩
    calc c * s ≤ c * (C * 2 ^ (-e).toNat) := Nat.mul_le_mul_left c hs
    _ = c * C * 2 ^ (-e).toNat := (Nat.mul_assoc c C _).symm

theorem roundPctHundredths_le (matched total : Nat) (hm : matched ≤ total)
    (ht : 0 < total) : roundPctHundredths matched total ≤ 10000 := by
  have h1 := fl64_bound matched total 1 ht (by omega) (by norm_num)
  have h2 := mulPow2Frac_bound 100 (fl64 matched total).1 1
    (fl64 matched total).2 h1.1 h1.2
  norm_num at h2
  have h3 := fl64_bound
    (mulPow2Frac 100 (fl64 matched total).1 (fl64 matched total).2).1
    (mulPow2Frac 100 (fl64 matched total).1 (fl64 matched total).2).2
    100 h2.1 h2.2 (by norm_num)
  have h4 := mulPow2Frac_bound 100
    (fl64 (mulPow2Frac 100 (fl64 matched total).1 (fl64 matched total).2).1
      (mulPow2Frac 100 (fl64 matched total).1 (fl64 matched total).2).2).1
    100
    (fl64 (mulPow2Frac 100 (fl64 matched total).1 (fl64 matched total).2).1
      (mulPow2Frac 100 (fl64 matched total).1 (fl64 matched total).2).2).2
    h3.1 h3.2
  norm_num at h4
  simp only [roundPctHundredths, floatDivMul100]
  exact roundNearEven_le _ _ 10000 h4.1 h4.2

/-- Claim C4 as amended: for a non-empty required list,
`compute_match_percentage` returns `(p, matched, total)` where `total` is
the length of the required list, `matched` the number of its entries in
the found set, and `p` the two-decimal rounding — nearest value, ties to
even — of the IEEE-754 double computed by `(matched / total) * 100.0`
(`roundPctHundredths` composes the two correctly rounded float operations
with CPython's correctly rounded `round(·, 2)`), rather than of the exact
rational `100 * matched / total`, from which it can differ at
float-perturbed ties; the percentage lies in `[0, 100]` (`10000`
hundredths, the lower bound inherent to `Nat`), and `roundNearEven` — the
rounding applied at every stage of the pipeline — is genuinely
nearest-with-ties-to-even. -/
theorem match_percentage_formula
    (required_skills found_skills : List Str) (h : required_skills ≠ []) :
    compute_match_percentage required_skills found_skills =
      (roundPctHundredths
         ((required_skills.filter (fun s => decide (s ∈ found_skills))).length)
         required_skills.length,
       (required_skills.filter (fun s => decide (s ∈ found_skills))).length,
       required_skills.length) ∧
    (compute_match_percentage required_skills found_skills).1 ≤ 10000 ∧
    (∀ a b, 0 < b →
      (2 * (b * roundNearEven a b) ≤ 2 * a + b ∧
       2 * a ≤ 2 * (b * roundNearEven a b) + b) ∧
      ((2 * (b * roundNearEven a b) = 2 * a + b ∨
        2 * (b * roundNearEven a b) + b = 2 * a) →
        roundNearEven a b % 2 = 0)) := by
  have heq : compute_match_percentage required_skills found_skills =
      (roundPctHundredths
         ((required_skills.filter (fun s => decide (s ∈ found_skills))).length)
         required_skills.length,
       (required_skills.filter (fun s => decide (s ∈ found_skills))).length,
       required_skills.length) := by
    rw [compute_match_percentage, if_neg h]
  refine ⟨heq, ?_, fun a b hb => roundNearEven_near a b hb⟩
  rw [heq]
  exact roundPctHundredths_le _ _ (List.length_filter_le _ _)
    (List.length_pos.mpr h)

set_option maxRecDepth 8000 in
/-- Counterexample to claim C4 as stated: with 23 of 160 required skills
matched, `round` applied to the exact rational `100 * 23 / 160` gives
`14.38` (`1438` hundredths: the true percentage `14.375` is an exact tie
and goes to the even hundredth), but the program computes
`(23 / 160) * 100.0 = 14.374999999999998` — the binary division result
falls just below the tie — so `round(…, 2)` returns `14.37`: the returned
percentage is not `round(100 * matched / total, 2)`. -/
theorem exact_rounding_refuted :
    compute_match_percentage
        (List.replicate 137 "x".data ++ List.replicate 23 "y".data)
        ["y".data] =
      (1437, 23, 160) ∧
    roundNearEven (10000 * 23) 160 = 1438 := by
  decide

/-- Witness for the amended C4: one of three required skills found gives
`3333` hundredths, the two-decimal rounding of the double
`(1 / 3) * 100.0 = 33.33333333333333…`. -/
theorem match_percentage_formula_witness :
    compute_match_percentage ["a".data, "b".data, "c".data] ["a".data] =
      (3333, 1, 3) := by
  have h := (match_percentage_formula ["a".data, "b".data, "c".data]
    ["a".data] (by decide)).1
  rw [h]
  decide

/-! ## The critical-list comparison is untrimmed (claim C6) -/

/-- Counterexample to claim C6: with the critical entry `" aws"` (leading
space) and found skills `["aws"]`, comparing *in trimmed form* (the
spec-side `missing_critical_spec`, worded from the claim) finds nothing
missing, but the code compares the entry untrimmed, lists it as missing and
rejects a candidate whose percentage is 100 %. -/
theorem critical_trimmed_comparison_refuted :
    missing_critical_spec [" aws".data] ["aws".data] = [] ∧
    missing_critical_list [" aws".data] ["aws".data] = [" aws".data] ∧
    classify_by_required_skills ["aws".data] ["aws".data] [" aws".data] =
      ("Reject".data, 10000, "Missing critical skills:  aws".data) := by
  decide

/-- Claim C6 as amended: blank and whitespace-only critical entries are
excluded from `missing_critical` and never cause a `Reject` (removing them
leaves the classification unchanged), but each remaining critical entry is
compared against the found-skills set in its original untrimmed form, and
reported untrimmed. -/
theorem missing_critical_untrimmed_semantics
    (required_skills found_skills critical_skills : List Str) :
    (∀ c ∈ critical_skills, strip c = [] →
      c ∉ missing_critical_list critical_skills found_skills) ∧
    classify_by_required_skills required_skills found_skills
        (critical_skills.filter (fun c => !(strip c == []))) =
      classify_by_required_skills required_skills found_skills
        critical_skills ∧
    (missing_critical_list critical_skills found_skills ≠ [] ↔
      ∃ c ∈ critical_skills, c ∉ found_skills ∧ strip c ≠ []) ∧
    (∀ c ∈ missing_critical_list critical_skills found_skills,
      c ∈ critical_skills ∧ c ∉ found_skills ∧ strip c ≠ []) := by
  have hchar : ∀ c ∈ missing_critical_list critical_skills found_skills,
      c ∈ critical_skills ∧ c ∉ found_skills ∧ strip c ≠ [] := by
    intro c hmem
    rw [missing_critical_list, List.mem_filter] at hmem
    simp only [Bool.and_eq_true, Bool.not_eq_true', decide_eq_false_iff_not,
      beq_eq_false_iff_ne, ne_eq] at hmem
    exact ⟨hmem.1, hmem.2.1, hmem.2.2⟩
  have hfilter : missing_critical_list
      (critical_skills.filter (fun c => !(strip c == []))) found_skills =
      missing_critical_list critical_skills found_skills := by
    rw [missing_critical_list, missing_critical_list, List.filter_filter]
    refine List.filter_congr ?_
    intro a _
    cases hdec : decide (a ∈ found_skills) <;>
      cases hstr : strip a == [] <;> simp [hdec, hstr]
  refine ⟨?_, ?_, ?_, hchar⟩
  · intro c _ hblank hmem
    exact (hchar c hmem).2.2 hblank
  · simp only [classify_by_required_skills, hfilter]
  · constructor
    · intro hne
      obtain ⟨x, hx⟩ := List.exists_mem_of_ne_nil _ hne
      exact ⟨x, hchar x hx⟩
    · rintro ⟨c, hc, hn, hs⟩ h0
      have hmem : c ∈ missing_critical_list critical_skills found_skills := by
        rw [missing_critical_list, List.mem_filter]
        refine ⟨hc, ?_⟩
        simp only [Bool.and_eq_true, Bool.not_eq_true',
          decide_eq_false_iff_not, beq_eq_false_iff_ne, ne_eq]
        exact ⟨hn, hs⟩
      rw [h0] at hmem
      exact List.not_mem_nil c hmem

/-- Witness for the amended C6: a whitespace-only critical entry can be
dropped without changing the classification. -/
theorem missing_critical_untrimmed_semantics_witness :
    classify_by_required_skills ["python".data] ["python".data]
        ((["   ".data, "python".data]).filter (fun c => !(strip c == []))) =
      classify_by_required_skills ["python".data] ["python".data]
        ["   ".data, "python".data] :=
  (missing_critical_untrimmed_semantics ["python".data] ["python".data]
    ["   ".data, "python".data]).2.1

/-! ## The normalizer matches its specified wording (claim C10) -/

theorem collapseRunsAux_true (cs : Str) :
    collapseRunsAux true cs =
      collapseRunsAux false (cs.dropWhile (fun d => !isKeptChar d)) := by
  induction cs with
  | nil => rfl
  | cons c cs ih =>
    by_cases h : isKeptChar c
    · rw [List.dropWhile_cons, if_neg (by simp [h])]
      simp only [collapseRunsAux]
      rw [if_pos h, if_pos h]
    · rw [List.dropWhile_cons, if_pos (by simp [h])]
      have e1 : collapseRunsAux true (c :: cs) = collapseRunsAux true cs := by
        simp only [collapseRunsAux]
        rw [if_neg h, if_pos trivial]
      rw [e1, ih]

theorem maskChar_space_iff (a : Char) :
    (maskChar a == ' ') = !isKeptChar a := by
  by_cases ha : isKeptChar a
  · have hne : a ≠ ' ' := by
      intro he
      subst he
      exact absurd ha (by decide)
    rw [maskChar, if_pos ha, ha]
    simp [hne]
  · have ha' : isKeptChar a = false := by
      cases hk : isKeptChar a
      · rfl
      · exact absurd hk ha
    rw [maskChar, if_neg ha, ha']
    simp

theorem collapse_eq_squeeze_aux :
    ∀ (n : Nat) (l : Str), l.length ≤ n →
      collapseRunsAux false l = squeezeSpaces (l.map maskChar) := by
  intro n
  induction n with
  | zero =>
    intro l hl
    cases l with
    | nil => simp only [List.map_nil, squeezeSpaces, collapseRunsAux]
    | cons c cs => simp at hl
  | succ n ih =>
    intro l hl
    cases l with
    | nil => simp only [List.map_nil, squeezeSpaces, collapseRunsAux]
    | cons c cs =>
      rw [List.length_cons] at hl
      by_cases h : isKeptChar c
      · have hc : maskChar c = c := by rw [maskChar, if_pos h]
        have hcs : c ≠ ' ' := by
          intro he
          subst he
          exact absurd h (by decide)
        have e1 : collapseRunsAux false (c :: cs) =
            c :: collapseRunsAux false cs := by
          simp only [collapseRunsAux]
          rw [if_pos h]
        have e2 : squeezeSpaces (c :: List.map maskChar cs) =
            c :: squeezeSpaces (List.map maskChar cs) := by
          simp only [squeezeSpaces]
          rw [if_neg hcs]
        rw [List.map_cons, hc, e1, e2, ih cs (by omega)]
      · have hc : maskChar c = ' ' := by rw [maskChar, if_neg h]
        have e1 : collapseRunsAux false (c :: cs) =
            ' ' :: collapseRunsAux true cs := by
          simp only [collapseRunsAux]
          rw [if_neg h, if_neg (by simp)]
        have e2 : squeezeSpaces (' ' :: List.map maskChar cs) =
            ' ' :: squeezeSpaces
              ((List.map maskChar cs).dropWhile (fun d => d == ' ')) := by
          simp only [squeezeSpaces]
          rw [if_pos trivial]
        have e3 : (List.map maskChar cs).dropWhile (fun d => d == ' ') =
            List.map maskChar (cs.dropWhile (fun d => !isKeptChar d)) := by
          rw [List.dropWhile_map]
          congr 1
          exact dropWhile_congr (fun a => maskChar_space_iff a) cs
        rw [List.map_cons, hc, e1, e2, e3, collapseRunsAux_true,
          ih _ (le_trans (length_dropWhile_le _ _) (by omega))]

/-- Claim C10: `normalize_text_for_matching` returns exactly one space,
then the lowercased input with every maximal run of characters outside
`[a-z0-9+#]` replaced by one space (`maskChar` + `squeezeSpaces` write the
claim's wording literally), then one space. It is a pure function, so
freedom from side effects holds by construction. -/
theorem normalize_matches_spec (text : Str) :
    normalize_text_for_matching text =
      ' ' :: (squeezeSpaces ((pyLower text).map maskChar) ++ [' ']) := by
  rw [normalize_text_for_matching, collapseRuns,
    collapse_eq_squeeze_aux (pyLower text).length (pyLower text)
      (Nat.le_refl _)]

/-! ## Determinism, sortedness and case-insensitivity of the matcher
(claim C7) -/

/-- Claim C7: `find_skill_matches` is deterministic (a pure function: equal
inputs give equal results, so re-running it changes nothing), its result is
sorted in the lexicographic code-point order and duplicate-free, it is
unchanged when the text or the skills differ only in letter case, and the
empty skill list yields the empty result rather than an error. -/
theorem find_skill_matches_deterministic
    (text text' : Str) (skills skills' : List Str)
    (ht : pyLower text' = pyLower text)
    (hs : skills'.map pyLower = skills.map pyLower) :
    find_skill_matches text skills = find_skill_matches text skills ∧
    List.Sorted lexLe (find_skill_matches text skills) ∧
    (find_skill_matches text skills).Nodup ∧
    find_skill_matches text' skills' = find_skill_matches text skills ∧
    find_skill_matches text [] = [] := by
  refine ⟨rfl, ?_, ?_, ?_, rfl⟩
  · rw [find_skill_matches]
    exact List.sorted_insertionSort lexLe _
  · rw [find_skill_matches]
    exact ((List.perm_insertionSort lexLe _).nodup_iff).mpr
      (foldl_addSkillMatch_nodup _ skills [] List.nodup_nil)
  · rw [find_skill_matches, find_skill_matches]
    congr 1
    rw [show normalize_text_for_matching text' =
        normalize_text_for_matching text from by
      rw [normalize_text_for_matching, normalize_text_for_matching,
        collapseRuns, collapseRuns, ht]]
    exact foldl_addSkillMatch_congr _ skills skills' [] hs

/-- Witness for C7: changing only letter case in the text and the skill
list leaves the result unchanged. -/
theorem find_skill_matches_deterministic_witness :
    find_skill_matches "sql DEV".data ["SQL".data] =
      find_skill_matches "SQL dev".data ["sql".data] :=
  (find_skill_matches_deterministic "SQL dev".data "sql DEV".data
    ["sql".data] ["SQL".data] (by decide) (by decide)).2.2.2.1

/-! ## Invariants of a screening pass (claim C9) -/

theorem parse_entry_fixed (raw : Str) :
    ∀ s ∈ parse_skill_entry raw, pyLower (strip s) = s := by
  intro s hs
  simp only [parse_skill_entry] at hs
  split at hs
  · exact absurd hs (List.not_mem_nil s)
  · rw [List.mem_map] at hs
    obtain ⟨u, _, hu⟩ := hs
    rw [← hu]
    exact pyLower_strip_fix u

theorem classify_match_pct (required found critical : List Str) :
    (classify_by_required_skills required found critical).2.1 =
      (compute_match_percentage required found).1 := by
  simp only [classify_by_required_skills]
  split
  · rfl
  · split
    · rfl
    · split
      · rfl
      · rfl

theorem compute_congr (required found1 found2 : List Str)
    (h : ∀ s ∈ required, s ∈ found1 ↔ s ∈ found2) :
    compute_match_percentage required found1 =
      compute_match_percentage required found2 := by
  by_cases hr : required = []
  · rw [hr]
    rfl
  · rw [compute_match_percentage, compute_match_percentage, if_neg hr,
      if_neg hr]
    have hf : required.filter (fun s => decide (s ∈ found1)) =
        required.filter (fun s => decide (s ∈ found2)) :=
      List.filter_congr fun s hs => decide_eq_decide.mpr (h s hs)
    rw [hf]

/-- Claim C9: after a screening pass every found skill is an entry of the
configured required or critical list (both parsed trimmed and lowercased at
screening time), the stored percentage is the one computed from the
required list and the found set, and the percentage depends on the found
set only through the required skills: two found sets agreeing on the
required skills give identical percentages, so a critical-only match never
changes the percentage. -/
theorem screen_pass_invariants
    (req_raw crit_raw text : Str) (found1 found2 : List Str)
    (hagree : ∀ s ∈ parse_skill_entry req_raw, s ∈ found1 ↔ s ∈ found2) :
    (∀ x ∈ (screen_candidate req_raw crit_raw text).found_skills,
      x ∈ parse_skill_entry req_raw ∨ x ∈ parse_skill_entry crit_raw) ∧
    (screen_candidate req_raw crit_raw text).match_pct =
      (compute_match_percentage (parse_skill_entry req_raw)
        (screen_candidate req_raw crit_raw text).found_skills).1 ∧
    compute_match_percentage (parse_skill_entry req_raw) found1 =
      compute_match_percentage (parse_skill_entry req_raw) found2 := by
  refine ⟨?_, ?_, compute_congr _ _ _ hagree⟩
  · intro x hx
    simp only [screen_candidate, find_skill_matches] at hx
    have hx2 := (List.perm_insertionSort lexLe _).mem_iff.mp hx
    rcases mem_foldl_addSkillMatch hx2 with h0 | ⟨kw, hkw, hxkw⟩
    · exact absurd h0 (List.not_mem_nil x)
    · rcases List.mem_append.mp hkw with hk | hk
      · left
        rw [hxkw, parse_entry_fixed req_raw kw hk]
        exact hk
      · right
        rw [hxkw, parse_entry_fixed crit_raw kw hk]
        exact hk
  · simp only [screen_candidate]
    exact classify_match_pct _ _ _

/-- Witness for C9: found sets `["python"]` and `["python", "aws"]` agree
on the parsed required skills `python, sql`, so the percentages coincide
(`aws` is critical-only there). -/
theorem screen_pass_invariants_witness :
    compute_match_percentage (parse_skill_entry "python, sql".data)
        ["python".data] =
      compute_match_percentage (parse_skill_entry "python, sql".data)
        ["python".data, "aws".data] :=
  (screen_pass_invariants "python, sql".data "aws".data
    "any resume text".data ["python".data] ["python".data, "aws".data]
    (by decide)).2.2

end ResumeScreening
